import Mathlib

/-!
Verification of the proxy-checker program in `erc1155_checker.py`.

The file shallowly embeds the parts of the program the specification claims
talk about: the address normalizer `parse_proxy`, the retry loop
`check_proxy`, the result-collection loop of `validate_proxies`, the input
reader `read_proxies` and the control flow of `main`.  Strings are modelled
as `List Char`; the thread pool is modelled by quantifying over an arbitrary
completion order (a permutation of the submitted proxies); the random jitter
of the backoff sleep is an explicit real parameter; wall-clock sleeping is
modelled by recording the slept durations.
-/

/-- Models Python `str.startswith`: `hasPre pat s` is true when `pat` is an
initial segment of `s`. -/
def hasPre : List Char → List Char → Bool
  | [], _ => true
  | _ :: _, [] => false
  | p :: ps, c :: cs => p == c && hasPre ps cs

/-- Models Python substring membership `pat in s`. -/
def strContains (pat : List Char) : List Char → Bool
  | [] => hasPre pat []
  | c :: cs => hasPre pat (c :: cs) || strContains pat cs

/-- Models `s.lstrip("://")` from lines 89 and 91 of the source: the lstrip
argument is a character set, so all leading `':'` and `'/'` characters are
dropped. -/
def lstripSep : List Char → List Char
  | [] => []
  | c :: cs => if c == ':' || c == '/' then lstripSep cs else c :: cs

/-- Last field of Python `s.split(pat)` (left-to-right scan over
non-overlapping matches).  `fuel` only bounds the recursion depth and is
instantiated with `s.length`, which suffices because every step consumes at
least one character. -/
def splitLastAux (pat : List Char) : Nat → List Char → List Char
  | 0, _ => []
  | _ + 1, [] => []
  | fuel + 1, c :: cs =>
    if hasPre pat (c :: cs) && !pat.isEmpty then
      splitLastAux pat fuel ((c :: cs).drop pat.length)
    else if strContains pat cs then
      splitLastAux pat fuel cs
    else c :: cs

/-- Models `s.split(pat)[-1]` as used on lines 89 and 91 of the source. -/
def splitLast (pat s : List Char) : List Char := splitLastAux pat s.length s

/-- The scheme separator `"://"`. -/
def sepTok : List Char := "://".toList

/-- The literal `"socks5"` tested by `startswith` and split on, line 88. -/
def socks5Tok : List Char := "socks5".toList

/-- The literal `"socks4"` tested by `startswith` and split on, line 90. -/
def socks4Tok : List Char := "socks4".toList

/-- The scheme text prepended on line 89. -/
def socks5hSch : List Char := "socks5h://".toList

/-- The scheme text prepended on line 91. -/
def socks4Sch : List Char := "socks4://".toList

/-- The scheme text prepended on line 93. -/
def httpSch : List Char := "http://".toList

/-- Lines 84-94, `parse_proxy`: the scheme-normalising string rewrite.  A
line containing `"://"` is left unchanged; a line starting with `"socks5"`
becomes `"socks5h://"` followed by the text after the last occurrence of
`"socks5"` with leading `':'`/`'/'` stripped; likewise for `"socks4"`; any
other line gets `"http://"` prepended. -/
def parse_proxy (p : List Char) : List Char :=
  if strContains sepTok p then p
  else if hasPre socks5Tok p then socks5hSch ++ lstripSep (splitLast socks5Tok p)
  else if hasPre socks4Tok p then socks4Sch ++ lstripSep (splitLast socks4Tok p)
  else httpSch ++ p

/-- Line 94: the returned mapping uses the same normalized string for the
http slot and the https slot. -/
def parse_proxy_conf (p : List Char) : List Char × List Char :=
  (parse_proxy p, parse_proxy p)

/-- Modelled from the words of claim C2, NOT from the source, for
comparison: the remainder is the text after stripping the matched leading
token (the longer of `socks5h`/`socks5`, resp. `socks4`) and any leading
`':'` or `'/'`. -/
def parse_proxy_claimed (p : List Char) : List Char :=
  if strContains sepTok p then p
  else if hasPre ("socks5h".toList) p then socks5hSch ++ lstripSep (p.drop 7)
  else if hasPre socks5Tok p then socks5hSch ++ lstripSep (p.drop 6)
  else if hasPre socks4Tok p then socks4Sch ++ lstripSep (p.drop 6)
  else httpSch ++ p

/-- Insertion into an already `≤`-sorted list of strings. -/
def insertSorted (x : String) : List String → List String
  | [] => [x]
  | y :: ys => if x ≤ y then x :: y :: ys else y :: insertSorted x ys

/-- Ascending sort of a list of strings, modelling Python `sorted`. -/
def sortStrings (l : List String) : List String := l.foldr insertSorted []

/-- Lines 54-68, `read_proxies`, with the file abstracted to its list of
lines: `sorted(set(line.strip() for line in f if line.strip()))`. -/
def read_proxies (lines : List String) : List String :=
  sortStrings (((lines.map String.trim).filter (fun s => s ≠ "")).dedup)

/-- Lines 98-130, `check_proxy`, attempt loop from attempt number `attempt`
with `n` attempts remaining.  `probe k` tells whether the request of attempt
`k` comes back with status 200 (`false` covers both a non-200 status and a
caught `requests.RequestException`; the two branches behave identically).
Returns the result (`some proxy` on success, `none` after exhaustion, line
123/130), the number of attempts performed, and the list of attempt numbers
after which the `time.sleep` on line 129 runs — the loop body reaches that
sleep after every attempt that did not return. -/
def check_from (probe : Nat → Bool) (proxy : String) : Nat → Nat → Option String × Nat × List Nat
  | _, 0 => (none, 0, [])
  | attempt, n + 1 =>
    if probe attempt then (some proxy, 1, [])
    else
      let r := check_from probe proxy (attempt + 1) n
      (r.1, r.2.1 + 1, attempt :: r.2.2)

/-- `check_proxy` runs the attempt loop `for attempt in range(1, retries + 1)`. -/
def check_proxy (probe : Nat → Bool) (proxy : String) (retries : Nat) :
    Option String × Nat × List Nat :=
  check_from probe proxy 1 retries

/-- Line 129: duration of the sleep after attempt number `attempt`, with
`r` the value drawn from `random.random()` (uniform on `[0,1)`):
`delay * (attempt ** 1.2) * (1 + random.random() * 0.3)`. -/
noncomputable def backoff_sleep (delay : ℝ) (attempt : Nat) (r : ℝ) : ℝ :=
  delay * (attempt : ℝ) ^ (1.2 : ℝ) * (1 + r * 0.3)

/-- Expectation of `backoff_sleep delay attempt r` over the uniform jitter
`r` on `[0,1)`, whose mean is `1/2`. -/
noncomputable def expected_backoff (delay : ℝ) (attempt : Nat) : ℝ :=
  delay * (attempt : ℝ) ^ (1.2 : ℝ) * (1 + 0.3 / 2)

/-- Outcome of one worker task as seen by the collection loop of
`validate_proxies`: `future.result()` either returns the `Optional[str]`
from `check_proxy` or raises (line 162 catches any exception). -/
inductive TaskResult
  | ok : Option String → TaskResult
  | exc : TaskResult

/-- The string appended to `valid` for proxy `p`, if any: lines 158-160
append `result` exactly when it is truthy (not `None` and not the empty
string). -/
def result_payload (res : String → TaskResult) (p : String) : Option String :=
  match res p with
  | TaskResult.ok (some s) => if s = "" then none else some s
  | TaskResult.ok none => none
  | TaskResult.exc => none

/-- One iteration of the `as_completed` loop, lines 155-165, acting on the
accumulator (valid list, count of terminal-but-not-valid results, completed
count — the progress bar update in the `finally` block). -/
def validate_step (res : String → TaskResult) (acc : List String × Nat × Nat)
    (p : String) : List String × Nat × Nat :=
  match res p with
  | TaskResult.ok (some s) =>
      if s = "" then (acc.1, acc.2.1 + 1, acc.2.2 + 1)
      else (acc.1 ++ [s], acc.2.1, acc.2.2 + 1)
  | TaskResult.ok none => (acc.1, acc.2.1 + 1, acc.2.2 + 1)
  | TaskResult.exc => (acc.1, acc.2.1 + 1, acc.2.2 + 1)

/-- Lines 133-168, `validate_proxies`: one task is submitted per element of
the input list and the loop consumes the futures in completion order;
`order` is that completion order, an arbitrary permutation of the submitted
proxies. -/
def validate_proxies (res : String → TaskResult) (order : List String) :
    List String × Nat × Nat :=
  order.foldl (validate_step res) ([], 0, 0)

/-- The full pipeline of one run: every submitted task is a `check_proxy`
call on its proxy (line 150), so no task raises on its own (request errors
are caught inside `check_proxy`). -/
def run_validation (probe : String → Nat → Bool) (retries : Nat)
    (order : List String) : List String × Nat × Nat :=
  validate_proxies (fun p => TaskResult.ok (check_proxy (probe p) p retries).1) order

/-- Line 148: the worker bound handed to `ThreadPoolExecutor` is the
requested `max_workers`, whatever the proxy list is. -/
def executor_max_workers (max_workers : Nat) (proxies : List String) : Nat :=
  max_workers

/-- Observable effects of `main`, lines 187-200. -/
inductive MainEffect
  | warnNoProxies : MainEffect
  | validateCall : List String → MainEffect
  | writeCall : List String → MainEffect
  | reportDone : MainEffect
  deriving DecidableEq

/-- Lines 187-200 of `main` after `read_proxies` returned `proxies`: an
empty list warns and returns before any scheduling; otherwise the run
validates, writes the valid list via `write_proxies`, and reports. -/
def main_flow (proxies valid : List String) : List MainEffect :=
  if proxies.isEmpty then [MainEffect.warnNoProxies]
  else [MainEffect.validateCall proxies, MainEffect.writeCall valid,
    MainEffect.reportDone]

theorem hasPre_append (pat l r : List Char) (h : hasPre pat l = true) :
    hasPre pat (l ++ r) = true := by
  induction pat generalizing l with
  | nil => rfl
  | cons p ps ih =>
    cases l with
    | nil => simp [hasPre] at h
    | cons c cs =>
      simp only [hasPre, Bool.and_eq_true] at h
      simp only [List.cons_append, hasPre, Bool.and_eq_true]
      exact ⟨h.1, ih cs h.2⟩

theorem strContains_nil_pat (s : List Char) : strContains [] s = true := by
  cases s <;> simp [strContains, hasPre]

theorem strContains_append (pat l r : List Char) (h : strContains pat l = true) :
    strContains pat (l ++ r) = true := by
  induction l with
  | nil =>
    cases pat with
    | nil => exact strContains_nil_pat r
    | cons p ps => simp [strContains, hasPre] at h
  | cons c cs ih =>
    simp only [strContains, Bool.or_eq_true] at h
    simp only [List.cons_append, strContains, Bool.or_eq_true]
    rcases h with h | h
    · exact Or.inl (hasPre_append _ _ _ h)
    · exact Or.inr (ih h)

theorem parse_proxy_contains_sep (p : List Char) :
    strContains sepTok (parse_proxy p) = true := by
  unfold parse_proxy
  split_ifs with h1 h2 h3
  · exact h1
  · exact strContains_append _ _ _ (by decide)
  · exact strContains_append _ _ _ (by decide)
  · exact strContains_append _ _ _ (by decide)

theorem parse_proxy_of_contains (p : List Char) (h : strContains sepTok p = true) :
    parse_proxy p = p := by
  unfold parse_proxy
  simp [h]

/-- C7: the normalizer's string rewrite is idempotent — normalizing an
already-normalized line leaves it unchanged, because every branch of
`parse_proxy` yields a string containing `"://"`. -/
theorem parse_proxy_idempotent (p : List Char) :
    parse_proxy (parse_proxy p) = parse_proxy p :=
  parse_proxy_of_contains _ (parse_proxy_contains_sep p)

theorem splitLastAux_no_contains (pat s : List Char) (fuel : Nat)
    (h : strContains pat s = false) (hfuel : s.length ≤ fuel) :
    splitLastAux pat fuel s = s := by
  cases s with
  | nil => cases fuel <;> rfl
  | cons c cs =>
    cases fuel with
    | zero => simp at hfuel
    | succ f =>
      simp only [strContains, Bool.or_eq_false_iff] at h
      simp only [splitLastAux, h.1, h.2, Bool.false_and, Bool.false_eq_true,
        if_false]

theorem hasPre_self_append (pat t : List Char) : hasPre pat (pat ++ t) = true := by
  induction pat with
  | nil => rfl
  | cons p ps ih => simp [hasPre, ih]

theorem splitLast_strip (pat t : List Char) (hne : pat ≠ [])
    (h : strContains pat t = false) : splitLast pat (pat ++ t) = t := by
  cases pat with
  | nil => exact absurd rfl hne
  | cons p ps =>
    unfold splitLast
    have hl : ((p :: ps) ++ t).length = (ps.length + t.length) + 1 := by
      simp [List.length_append]
    rw [hl]
    show splitLastAux (p :: ps) ((ps.length + t.length) + 1) (p :: (ps ++ t)) = t
    rw [splitLastAux]
    have hc : (hasPre (p :: ps) (p :: (ps ++ t)) && !(p :: ps).isEmpty) = true := by
      rw [Bool.and_eq_true]
      exact ⟨hasPre_self_append (p :: ps) t, rfl⟩
    rw [if_pos hc]
    have hdrop : ((p :: (ps ++ t)).drop (p :: ps).length) = t := by
      show ((p :: ps) ++ t).drop (p :: ps).length = t
      exact List.drop_left _ _
    rw [hdrop]
    exact splitLastAux_no_contains (p :: ps) t _ h (by omega)

theorem append_ne_nil_of_len (l r : List Char) (h : l.length ≠ 0) : l ++ r ≠ [] := by
  intro he
  have hlen := congrArg List.length he
  rw [List.length_append] at hlen
  simp only [List.length_nil] at hlen
  omega

/-- C2 counterexample: on `"socks5socks5:1.2.3.4"` (no `"://"`, starts with
`socks5`, and contains the token `socks5` twice) the code rewrites to the
text after the LAST occurrence of `"socks5"`, not to the text after
stripping the leading token as the claim states. -/
theorem parse_proxy_split_cex :
    parse_proxy ("socks5socks5:1.2.3.4".toList) = "socks5h://1.2.3.4".toList ∧
    parse_proxy_claimed ("socks5socks5:1.2.3.4".toList) =
      "socks5h://socks5:1.2.3.4".toList ∧
    parse_proxy ("socks5socks5:1.2.3.4".toList) ≠
      parse_proxy_claimed ("socks5socks5:1.2.3.4".toList) :=
  ⟨by decide, by decide, by decide⟩

/-- C2 amended: a line with `"://"` is unchanged and a line matching neither
socks token becomes `http://<line>`, as claimed; but for a `socks5`/`socks4`
line the remainder is the text after the last occurrence of the token
`"socks5"`/`"socks4"` (Python `split(tok)[-1]`), leading `':'`/`'/'`
stripped.  When the token occurs only at the start of the line — the common
case — this coincides with the claimed strip-the-token rewrite, as the
second and third conjuncts state. -/
theorem parse_proxy_amended :
    (∀ p, strContains sepTok p = true → parse_proxy p = p) ∧
    (∀ t, strContains sepTok (socks5Tok ++ t) = false →
      strContains socks5Tok t = false →
      parse_proxy (socks5Tok ++ t) = socks5hSch ++ lstripSep t) ∧
    (∀ t, strContains sepTok (socks4Tok ++ t) = false →
      strContains socks4Tok t = false →
      parse_proxy (socks4Tok ++ t) = socks4Sch ++ lstripSep t) ∧
    (∀ p, strContains sepTok p = false → hasPre socks5Tok p = false →
      hasPre socks4Tok p = false → parse_proxy p = httpSch ++ p) := by
  refine ⟨parse_proxy_of_contains, ?_, ?_, ?_⟩
  · intro t h1 h2
    have h3 := hasPre_self_append socks5Tok t
    have h4 := splitLast_strip socks5Tok t (by decide) h2
    simp [parse_proxy, h1, h3, h4]
  · intro t h1 h2
    have h3 := hasPre_self_append socks4Tok t
    have h4 := splitLast_strip socks4Tok t (by decide) h2
    have h5 : hasPre socks5Tok (socks4Tok ++ t) = false := rfl
    simp [parse_proxy, h1, h3, h4, h5]
  · intro p h1 h2 h3
    simp [parse_proxy, h1, h2, h3]

theorem parse_proxy_amended_witness :
    parse_proxy (socks5Tok ++ ":1.2.3.4:8080".toList) =
      socks5hSch ++ lstripSep (":1.2.3.4:8080".toList) :=
  parse_proxy_amended.2.1 (":1.2.3.4:8080".toList) (by decide) (by decide)

/-- C6 counterexample: the normalizer rejects nothing.  The empty line and
the malformed line `"bad::line"` both produce an endpoint string, and the
task for `"bad::line"` is submitted and reaches a terminal result (the
completed counter of a one-element run is 1), so the line IS checked. -/
theorem bad_line_checked :
    parse_proxy ("bad::line".toList) = "http://bad::line".toList ∧
    parse_proxy ([]) = "http://".toList ∧
    (validate_proxies (fun _ => TaskResult.ok none) ["bad::line"]).2.2 = 1 :=
  ⟨by decide, by decide, rfl⟩

theorem mem_insertSorted (x a : String) (l : List String) :
    a ∈ insertSorted x l ↔ a = x ∨ a ∈ l := by
  induction l with
  | nil => simp [insertSorted]
  | cons y ys ih =>
    unfold insertSorted
    by_cases hxy : x ≤ y
    · simp [hxy]
    · simp only [hxy, if_false, List.mem_cons, ih]
      tauto

theorem mem_sortStrings (a : String) (l : List String) :
    a ∈ sortStrings l ↔ a ∈ l := by
  induction l with
  | nil => simp [sortStrings]
  | cons x xs ih =>
    show a ∈ insertSorted x (sortStrings xs) ↔ a ∈ x :: xs
    rw [mem_insertSorted, ih, List.mem_cons]

/-- C6 amended: blank lines are excluded by the file reader — the working
set `read_proxies` never contains the empty string — while the normalizer
itself is total: every line, `"bad::line"` included, is rewritten to a
non-empty endpoint string and handed downstream unconditionally. -/
theorem normalizer_total :
    (∀ lines, ¬ ("" ∈ read_proxies lines)) ∧
    (∀ p, parse_proxy p ≠ []) ∧
    parse_proxy ("bad::line".toList) = "http://bad::line".toList := by
  refine ⟨?_, ?_, by decide⟩
  · intro lines h
    rw [read_proxies, mem_sortStrings, List.mem_dedup, List.mem_filter] at h
    simp at h
  · intro p
    unfold parse_proxy
    split_ifs with h1 h2 h3
    · intro hp
      subst hp
      exact absurd h1 (by decide)
    · exact append_ne_nil_of_len _ _ (by decide)
    · exact append_ne_nil_of_len _ _ (by decide)
    · exact append_ne_nil_of_len _ _ (by decide)

theorem normalizer_total_witness :
    ¬ ("" ∈ read_proxies ["  ", "1.2.3.4:8080", ""]) :=
  normalizer_total.1 ["  ", "1.2.3.4:8080", ""]

theorem check_from_allfail (proxy : String) : ∀ (n a : Nat),
    check_from (fun _ => false) proxy a n = (none, n, List.range' a n) := by
  intro n
  induction n with
  | zero => intro a; rfl
  | succ n ih =>
    intro a
    simp [check_from, List.range', ih]

theorem check_from_result (probe : Nat → Bool) (proxy : String) : ∀ (n a : Nat),
    (check_from probe proxy a n).1 = none ∨
      (check_from probe proxy a n).1 = some proxy := by
  intro n
  induction n with
  | zero => intro a; exact Or.inl rfl
  | succ n ih =>
    intro a
    by_cases h : probe a
    · right
      simp [check_from, h]
    · simpa [check_from, h] using ih (a + 1)

/-- C3 counterexample: with `retries = 1` and a probe that fails, the code
performs one backoff sleep (after its single, final attempt), not zero —
the `time.sleep` on line 129 sits inside the loop body and is reached after
the last attempt too. -/
theorem retry_one_sleep_cex :
    (check_proxy (fun _ => false) "p" 1).2.2 = [1] ∧
    ((check_proxy (fun _ => false) "p" 1).2.2).length ≠ 0 :=
  ⟨rfl, by decide⟩

/-- C3 amended: a backoff sleep occurs after EVERY failed attempt, the final
one included: an always-failing run with `retries` attempts sleeps exactly
after attempts `1, …, retries`; in particular `retries = 1` with a failing
probe performs exactly one sleep, not zero. -/
theorem sleep_after_every_failed_attempt (proxy : String) (retries : Nat) :
    (check_proxy (fun _ => false) proxy retries).2.2 = List.range' 1 retries ∧
    (check_proxy (fun _ => false) proxy 1).2.2 = [1] := by
  constructor
  · have h := check_from_allfail proxy retries 1
    rw [check_proxy, h]
  · rw [check_proxy, check_from_allfail]
    rfl

/-- C8: for a probe that fails on every attempt, `check_proxy` makes exactly
`retries` attempts (sleeping after each) and returns `None`; and for a
positive base delay the backoff duration averaged over the uniform jitter is
strictly increasing in the attempt number, since `attempt ** 1.2` is
strictly monotone. -/
theorem allfail_retries_and_expected_mono (proxy : String) (retries : Nat)
    (delay : ℝ) (hd : 0 < delay) :
    check_proxy (fun _ => false) proxy retries =
      (none, retries, List.range' 1 retries) ∧
    ∀ k l : Nat, k < l → expected_backoff delay k < expected_backoff delay l := by
  refine ⟨check_from_allfail proxy retries 1, ?_⟩
  intro k l hkl
  unfold expected_backoff
  have hb : ((k : ℝ)) ^ (1.2 : ℝ) < ((l : ℝ)) ^ (1.2 : ℝ) :=
    Real.rpow_lt_rpow (by positivity) (by exact_mod_cast hkl) (by norm_num)
  have hc : (0 : ℝ) < 1 + 0.3 / 2 := by norm_num
  nlinarith [mul_lt_mul_of_pos_left hb hd]

theorem allfail_expected_mono_witness :
    expected_backoff 1 1 < expected_backoff 1 2 :=
  (allfail_retries_and_expected_mono "p" 1 1 (by norm_num)).2 1 2 (by norm_num)

theorem expected_backoff_avg (d : ℝ) (k : Nat) :
    expected_backoff d k = (backoff_sleep d k 0 + backoff_sleep d k 1) / 2 := by
  unfold expected_backoff backoff_sleep
  ring

theorem expected_backoff_integral (d : ℝ) (k : Nat) :
    (∫ r in (0:ℝ)..1, backoff_sleep d k r) = expected_backoff d k := by
  have hfun : (fun r : ℝ => backoff_sleep d k r) =
      fun r : ℝ =>
        d * (k : ℝ) ^ (1.2 : ℝ) + (d * (k : ℝ) ^ (1.2 : ℝ) * 0.3) * r := by
    funext r
    unfold backoff_sleep
    ring
  rw [hfun]
  rw [intervalIntegral.integral_add intervalIntegrable_const
    ((continuous_const.mul continuous_id').intervalIntegrable 0 1)]
  rw [intervalIntegral.integral_const, intervalIntegral.integral_const_mul,
    integral_id]
  unfold expected_backoff
  norm_num
  ring

/-- C4 counterexample: at attempt 4 with base delay 1 and jitter draw 0 the
code sleeps `4 ** 1.2 < 8` seconds, while the claimed exponential form
`base * 2^(attempt-1) * (1 + j)` is at least 8 for every `j ∈ [0, 0.4)`:
the code's backoff factor is the polynomial `attempt ** 1.2`, not
`2^(attempt-1)`. -/
theorem backoff_not_exponential :
    ¬ ∃ j : ℝ, 0 ≤ j ∧ j < 0.4 ∧
      backoff_sleep 1 4 0 = 1 * (2 : ℝ) ^ ((4 : ℝ) - 1) * (1 + j) := by
  rintro ⟨j, hj0, _, heq⟩
  have h2 : (0 : ℝ) ≤ 2 := by norm_num
  have e8 : (2 : ℝ) ^ ((4 : ℝ) - 1) = 8 := by
    have h3 : ((4 : ℝ) - 1) = ((3 : ℕ) : ℝ) := by norm_num
    rw [h3, Real.rpow_natCast]
    norm_num
  have e4 : (4 : ℝ) ^ (1.2 : ℝ) = (2 : ℝ) ^ (2.4 : ℝ) := by
    have h44 : (4 : ℝ) = (2 : ℝ) ^ ((2 : ℕ) : ℝ) := by
      rw [Real.rpow_natCast]
      norm_num
    rw [h44, ← Real.rpow_mul h2]
    norm_num
  have hlt : (4 : ℝ) ^ (1.2 : ℝ) < 8 := by
    rw [e4]
    calc (2 : ℝ) ^ (2.4 : ℝ) < (2 : ℝ) ^ ((3 : ℕ) : ℝ) := by
          apply (Real.rpow_lt_rpow_left_iff (by norm_num : (1 : ℝ) < 2)).mpr
          push_cast
          norm_num
      _ = 8 := by
          rw [Real.rpow_natCast]
          norm_num
  unfold backoff_sleep at heq
  rw [e8] at heq
  push_cast at heq
  nlinarith [hlt, hj0, heq]

/-- C4 amended: the slept duration at attempt `k` is
`delay * k^1.2 * (1 + j)` with `j = 0.3 * r ∈ [0, 0.3)` — polynomial growth
with exponent 1.2 in the attempt number, multiplicative jitter drawn from
`[0, 0.3)`, and hence always within `[delay * k^1.2, 1.3 * delay * k^1.2)`. -/
theorem backoff_polynomial_with_jitter (delay : ℝ) (k : Nat) (r : ℝ)
    (hd : 0 < delay) (hk : 1 ≤ k) (hr0 : 0 ≤ r) (hr1 : r < 1) :
    (∃ j : ℝ, 0 ≤ j ∧ j < 0.3 ∧
      backoff_sleep delay k r = delay * (k : ℝ) ^ (1.2 : ℝ) * (1 + j)) ∧
    delay * (k : ℝ) ^ (1.2 : ℝ) ≤ backoff_sleep delay k r ∧
    backoff_sleep delay k r < delay * (k : ℝ) ^ (1.2 : ℝ) * 1.3 := by
  have hk0 : 0 < k := hk
  have hkpos : (0 : ℝ) < (k : ℝ) := by exact_mod_cast hk0
  have hcp : (0 : ℝ) < (k : ℝ) ^ (1.2 : ℝ) := Real.rpow_pos_of_pos hkpos _
  have hP : (0 : ℝ) < delay * (k : ℝ) ^ (1.2 : ℝ) := mul_pos hd hcp
  refine ⟨⟨r * 0.3, by nlinarith, by nlinarith, by unfold backoff_sleep; ring⟩,
    ?_, ?_⟩
  · unfold backoff_sleep
    nlinarith
  · unfold backoff_sleep
    nlinarith

theorem backoff_polynomial_witness :
    ∃ j : ℝ, 0 ≤ j ∧ j < 0.3 ∧
      backoff_sleep 1 2 (1 / 2) = 1 * ((2 : Nat) : ℝ) ^ (1.2 : ℝ) * (1 + j) :=
  (backoff_polynomial_with_jitter 1 2 (1 / 2) (by norm_num) (by norm_num)
    (by norm_num) (by norm_num)).1

theorem validate_step_eq (res : String → TaskResult) (acc : List String × Nat × Nat)
    (p : String) :
    validate_step res acc p =
      (acc.1 ++ (result_payload res p).toList,
       acc.2.1 + (if (result_payload res p).isNone then 1 else 0),
       acc.2.2 + 1) := by
  unfold validate_step result_payload
  cases hres : res p with
  | ok os =>
    cases os with
    | none => simp
    | some s => by_cases hs : s = "" <;> simp [hs]
  | exc => simp

theorem validate_foldl (res : String → TaskResult) : ∀ (order : List String)
    (acc : List String × Nat × Nat),
    List.foldl (validate_step res) acc order =
      (acc.1 ++ order.filterMap (result_payload res),
       acc.2.1 + order.countP (fun p => (result_payload res p).isNone),
       acc.2.2 + order.length) := by
  intro order
  induction order with
  | nil => intro acc; simp
  | cons p l ih =>
    intro acc
    rw [List.foldl_cons, validate_step_eq, ih]
    cases hpay : result_payload res p with
    | none =>
      simp [List.filterMap_cons, hpay, List.countP_cons]
      omega
    | some s =>
      simp [List.filterMap_cons, hpay, List.countP_cons, List.append_assoc]
      omega

theorem filterMap_length_add_countP {α β : Type} (g : α → Option β) :
    ∀ l : List α,
      (l.filterMap g).length + l.countP (fun a => (g a).isNone) = l.length := by
  intro l
  induction l with
  | nil => rfl
  | cons a l ih =>
    cases hg : g a with
    | none =>
      simp [List.filterMap_cons, hg, List.countP_cons]
      omega
    | some b =>
      simp [List.filterMap_cons, hg, List.countP_cons]
      omega

/-- C1: whatever the completion order (an arbitrary permutation of the
submitted proxies) and whatever each task does — return a string, return
`None`, or raise (the `except` on line 162 isolates the failure) — the
collection loop consumes all `N` futures before returning: the completed
count is `N`, the valid and not-valid terminal results partition `N`, each
input proxy is submitted exactly once (the processed multiset equals the
input multiset), and the valid list is a pointwise function of each task's
own outcome, so an exception in one task removes nothing from the others. -/
theorem validate_terminal_results (res : String → TaskResult)
    (proxies order : List String) (hperm : order.Perm proxies) :
    (validate_proxies res order).2.2 = proxies.length ∧
    (validate_proxies res order).1.length + (validate_proxies res order).2.1 =
      proxies.length ∧
    (∀ p, order.count p = proxies.count p) ∧
    (validate_proxies res order).1 = order.filterMap (result_payload res) := by
  have h1 : validate_proxies res order =
      (order.filterMap (result_payload res),
       order.countP (fun p => (result_payload res p).isNone),
       order.length) := by
    unfold validate_proxies
    rw [validate_foldl]
    simp
  rw [h1]
  refine ⟨hperm.length_eq, ?_, fun p => hperm.count_eq p, rfl⟩
  rw [← hperm.length_eq]
  exact filterMap_length_add_countP (result_payload res) order

theorem validate_terminal_witness :
    (validate_proxies (fun _ => TaskResult.ok none) ["b", "a"]).2.2 =
      (["a", "b"] : List String).length :=
  (validate_terminal_results (fun _ => TaskResult.ok none) ["a", "b"] ["b", "a"]
    (List.Perm.swap "a" "b" [])).1

theorem filterMap_id_sublist {g : String → Option String}
    (hg : ∀ p, g p = none ∨ g p = some p) :
    ∀ l : List String, (l.filterMap g).Sublist l := by
  intro l
  induction l with
  | nil => simp
  | cons a l ih =>
    rcases hg a with h | h
    · have he : List.filterMap g (a :: l) = List.filterMap g l := by
        simp [List.filterMap_cons, h]
      rw [he]
      exact ih.cons a
    · have he : List.filterMap g (a :: l) = a :: List.filterMap g l := by
        simp [List.filterMap_cons, h]
      rw [he]
      exact ih.cons₂ a

/-- C10: every string in the output list of a run is one of the raw input
proxies — `check_proxy` returns its `proxy` argument itself on success
(line 123), never the `parse_proxy` rewrite, which only fills the request's
proxy dictionary — and for a duplicate-free input each proxy appears at
most once in the output. -/
theorem output_subset_raw_input (probe : String → Nat → Bool) (retries : Nat)
    (proxies order : List String) (hperm : order.Perm proxies) :
    (∀ s, s ∈ (run_validation probe retries order).1 → s ∈ proxies) ∧
    (proxies.Nodup → ∀ s, ((run_validation probe retries order).1).count s ≤ 1) ∧
    (∀ (pr : Nat → Bool) (q : String) (n : Nat),
      (check_proxy pr q n).1 = none ∨ (check_proxy pr q n).1 = some q) := by
  have hg : ∀ p, result_payload
      (fun p => TaskResult.ok (check_proxy (probe p) p retries).1) p = none ∨
      result_payload
      (fun p => TaskResult.ok (check_proxy (probe p) p retries).1) p = some p := by
    intro p
    rcases check_from_result (probe p) p retries 1 with h | h
    · left
      have h2 : (check_proxy (probe p) p retries).1 = none := h
      simp [result_payload, h2]
    · by_cases hp : p = ""
      · left
        subst hp
        have h2 : (check_proxy (probe "") "" retries).1 = some "" := h
        simp [result_payload, h2]
      · right
        have h2 : (check_proxy (probe p) p retries).1 = some p := h
        simp [result_payload, h2, hp]
  have hrun : (run_validation probe retries order).1 =
      order.filterMap (result_payload
        (fun p => TaskResult.ok (check_proxy (probe p) p retries).1)) := by
    unfold run_validation validate_proxies
    rw [validate_foldl]
    simp
  have hsub := filterMap_id_sublist hg order
  rw [hrun]
  refine ⟨?_, ?_, fun pr q n => check_from_result pr q n 1⟩
  · intro s hs
    exact hperm.subset (hsub.subset hs)
  · intro hnd s
    have hndo : order.Nodup := (hperm.nodup_iff).mpr hnd
    have hfm : (order.filterMap (result_payload
        (fun p => TaskResult.ok (check_proxy (probe p) p retries).1))).Nodup :=
      hsub.nodup hndo
    exact List.nodup_iff_count_le_one.mp hfm s

theorem output_subset_witness :
    ((run_validation (fun _ _ => true) 1 ["a"]).1).count "a" ≤ 1 :=
  (output_subset_raw_input (fun _ _ => true) 1 ["a"] ["a"]
    (List.Perm.refl _)).2.1 (by decide) "a"

/-- C5 counterexample: with 1000 endpoints (more than 200) and a requested
bound of 500, the executor is created with 500 workers: `validate_proxies`
passes `max_workers` straight to `ThreadPoolExecutor` and no ceiling of 150
exists anywhere in the code. -/
theorem worker_cap_cex :
    executor_max_workers 500 (List.replicate 1000 "1.2.3.4:8080") = 500 ∧
    200 < (List.replicate 1000 "1.2.3.4:8080").length ∧
    ¬ executor_max_workers 500 (List.replicate 1000 "1.2.3.4:8080") ≤ 150 := by
  refine ⟨rfl, ?_, ?_⟩
  · rw [List.length_replicate]
    norm_num
  · intro h
    rw [executor_max_workers] at h
    omega

/-- C5 amended: no cap is applied at any input size — the effective worker
count handed to the thread pool always equals the requested bound. -/
theorem worker_bound_uncapped (w : Nat) (ps : List String) :
    executor_max_workers w ps = w := rfl

/-- C9: when reading the input yields an empty proxy list, `main` warns and
returns before the scheduler runs: no validation is scheduled and
`write_proxies` is never called, so the filesystem is untouched. -/
theorem empty_input_no_write (valid : List String) :
    main_flow [] valid = [MainEffect.warnNoProxies] ∧
    (∀ vs, ¬ (MainEffect.writeCall vs ∈ main_flow [] valid)) ∧
    (∀ qs, ¬ (MainEffect.validateCall qs ∈ main_flow [] valid)) := by
  refine ⟨rfl, ?_, ?_⟩ <;> intro xs hmem <;> rw [main_flow] at hmem <;>
    simp at hmem

theorem empty_input_no_write_witness :
    main_flow [] [] = [MainEffect.warnNoProxies] :=
  (empty_input_no_write []).1
